import Mathlib

/-!
Verification of the document storage core of `backend/main.py` (Shareboard).

The Python program keeps a metadata index (`documents.json`), one content
file per document under `file/{id}.lix`, and timestamped backup copies
under `backup/{id}.{timestamp}.lix`.  We embed that state as a value of
type `FS`:

* the index file is represented by its parse status (`IndexData`): the
  file can be absent, present but not valid JSON (`json.load` raises
  `json.JSONDecodeError`), present as valid JSON whose items do not
  validate as `DocumentMeta` records (`DocumentMeta(**meta)` raises
  `pydantic.ValidationError`, e.g. for file contents `[{}]`), or a valid
  list of records;
* every other file (content files and backups) is an entry of an
  association list `files : List (String × String)` mapping a path to the
  file's text; a path that is absent or unreadable has no entry;
* `datetime.now()` is modelled by a logical clock: each call returns the
  current `clock` value and increments it, so distinct calls yield
  distinct, increasing timestamps (the microsecond-precision reading of
  the real clock).

Operations that can raise the uncaught `pydantic.ValidationError` return
in the `Res` monad-like type; every other outcome is `.ok`.
-/

/-- Runtime document view returned to callers (`class Document`):
content is materialized from the content file. Timestamps are logical
clock readings. -/
structure Document where
  id : String
  title : String
  content : String
  created_at : Nat
  updated_at : Nat
deriving DecidableEq, Repr

/-- Metadata record persisted in `documents.json` (`class DocumentMeta`). -/
structure DocumentMeta where
  id : String
  title : String
  file_path : String
  created_at : Nat
  updated_at : Nat
deriving DecidableEq, Repr

/-- Parse status of the bytes currently stored in `documents.json`.
`notJson` stands for contents on which `json.load` raises
`json.JSONDecodeError`; `badRecords` stands for valid JSON on which
`DocumentMeta(**meta)` raises a validation error (for instance `[{}]`);
`good metas` stands for a well-formed serialized record list. -/
inductive IndexData where
  | notJson
  | badRecords
  | good (metas : List DocumentMeta)
deriving DecidableEq, Repr

/-- Result of an operation: `.ok` or the uncaught
`pydantic.ValidationError` escaping `_load_document_metas_sync`. -/
inductive Res (α : Type) where
  | ok (a : α)
  | validationError
deriving DecidableEq, Repr

/-- Lookup in the association list of files: the text at path `p`, or
`none` when no file exists at `p`. -/
def lookupEntry (l : List (String × String)) (p : String) : Option String :=
  (l.find? (fun e => e.1 == p)).map Prod.snd

/-- Overwrite-or-create at path `p`: replaces the entry at `p` when
present, otherwise appends a new entry (a fresh file). -/
def writeEntries : List (String × String) → String → String → List (String × String)
  | [], p, c => [(p, c)]
  | e :: rest, p, c => if e.1 == p then (p, c) :: rest else e :: writeEntries rest p c

/-- Remove every entry at path `p` (file deletion). -/
def removeEntries : List (String × String) → String → List (String × String)
  | [], _ => []
  | e :: rest, p => if e.1 == p then removeEntries rest p else e :: removeEntries rest p

/-- The filesystem-and-clock state of the program. -/
structure FS where
  index : Option IndexData
  files : List (String × String)
  clock : Nat
deriving DecidableEq, Repr

def getFile (fs : FS) (p : String) : Option String := lookupEntry fs.files p

def writeFile (fs : FS) (p c : String) : FS :=
  { fs with files := writeEntries fs.files p c }

def removeFile (fs : FS) (p : String) : FS :=
  { fs with files := removeEntries fs.files p }

/-- One `datetime.now()` call: read the clock and advance it. -/
def now (fs : FS) : Nat × FS := (fs.clock, { fs with clock := fs.clock + 1 })

/-- Kernel-reducible list prefix test (character lists). -/
def isPathPrefixOf : List Char → List Char → Bool
  | [], _ => true
  | _ :: _, [] => false
  | a :: as, b :: bs => a == b && isPathPrefixOf as bs

/-- FILES_DIR relative to BASE_DIR (`os.path.join(BASE_DIR, "file")`). -/
def FILES_DIR : String := "file"

/-- BACKUP_DIR relative to BASE_DIR (`os.path.join(BASE_DIR, "backup")`). -/
def BACKUP_DIR : String := "backup"

/-- Model of `_get_file_path`: `os.path.join(FILES_DIR, f"{doc_id}.lix")`. -/
def filePathFor (doc_id : String) : String := FILES_DIR ++ "/" ++ doc_id ++ ".lix"

/-- Model of `_get_backup_path`: `os.path.join(BACKUP_DIR, f"{doc_id}.{timestamp}.lix")`
with a microsecond-precision timestamp (here: the logical clock reading). -/
def backupPathFor (doc_id : String) (t : Nat) : String :=
  BACKUP_DIR ++ "/" ++ doc_id ++ "." ++ toString t ++ ".lix"

/-- A path lies in the backup directory. -/
def isBackupPath (p : String) : Bool := isPathPrefixOf "backup/".data p.data

/-- The files currently in the backup directory. -/
def backupFiles (fs : FS) : List (String × String) :=
  fs.files.filter (fun e => isBackupPath e.1)

/-- Model of `_load_document_metas_sync`: absent file, or `json.JSONDecodeError`,
yields `[]`; valid JSON with invalid records raises (uncaught)
`pydantic.ValidationError`; otherwise the parsed records. -/
def load_document_metas_sync (fs : FS) : Res (List DocumentMeta) :=
  match fs.index with
  | none => .ok []
  | some .notJson => .ok []
  | some .badRecords => .validationError
  | some (.good metas) => .ok metas

/-- Model of `_save_document_metas_sync` (big-step view): after the temp write and
`os.replace`, the index file holds exactly the serialized `metas`.
The intermediate states of this function are modelled by the small-step
writer below (`applySaveStep`). -/
def save_document_metas_sync (fs : FS) (metas : List DocumentMeta) : FS :=
  { fs with index := some (.good metas) }

/-- Model of `_read_file_content_sync`: file text, or `""` on
`FileNotFoundError` / `IOError` (modelled as an absent entry). -/
def read_file_content_sync (fs : FS) (file_path : String) : String :=
  (getFile fs file_path).getD ""

/-- Model of `_write_file_content_sync`: overwrite the file at `file_path`. -/
def write_file_content_sync (fs : FS) (file_path content : String) : FS :=
  writeFile fs file_path content

/-- Model of `_backup_file_sync`: if the source file exists, copy its bytes to the
backup path; no-op when the source is absent. -/
def backup_file_sync (fs : FS) (source_path backup_path : String) : FS :=
  match getFile fs source_path with
  | some c => writeFile fs backup_path c
  | none => fs

/-- Materialize one record into a `Document` by reading its content file
(the loop body of `load_documents` / `get_document_by_id`). -/
def materialize (fs : FS) (meta : DocumentMeta) : Document :=
  { id := meta.id
    title := meta.title
    content := read_file_content_sync fs meta.file_path
    created_at := meta.created_at
    updated_at := meta.updated_at }

/-- Model of `load_documents`: load all records and materialize each. -/
def load_documents (fs : FS) : Res (List Document) :=
  match load_document_metas_sync fs with
  | .validationError => .validationError
  | .ok metas => .ok (metas.map (materialize fs))

/-- Model of `get_document_by_id`: linear search for the first record whose id
matches, materialized; `none` when no record matches. -/
def get_document_by_id (fs : FS) (doc_id : String) : Res (Option Document) :=
  match load_document_metas_sync fs with
  | .validationError => .validationError
  | .ok metas => .ok ((metas.find? (fun meta => meta.id == doc_id)).map (materialize fs))

/-- The `for i, existing_meta in enumerate(metas)` loop of
`save_document`: replace the first record with the same id in place,
otherwise append the new record at the end. -/
def upsertMeta : List DocumentMeta → DocumentMeta → List DocumentMeta
  | [], meta => [meta]
  | existing :: rest, meta =>
      if existing.id == meta.id then meta :: rest else existing :: upsertMeta rest meta

/-- Model of `save_document(document, is_new)`: when updating (`not is_new`) and
the canonical content file exists, take a timestamp and back the file up;
then overwrite the content file; then reload the records, upsert the
record for this document, and persist the record list. -/
def save_document (fs : FS) (document : Document) (is_new : Bool) : Res FS :=
  let file_path := filePathFor document.id
  let fs1 :=
    if !is_new && (getFile fs file_path).isSome then
      let tp := now fs
      backup_file_sync tp.2 file_path (backupPathFor document.id tp.1)
    else fs
  let fs2 := write_file_content_sync fs1 file_path document.content
  match load_document_metas_sync fs2 with
  | .validationError => .validationError
  | .ok metas =>
      let meta : DocumentMeta :=
        { id := document.id
          title := document.title
          file_path := file_path
          created_at := document.created_at
          updated_at := document.updated_at }
      .ok (save_document_metas_sync fs2 (upsertMeta metas meta))

/-- Model of `create_document`: id is `str(len(existing_docs) + 1)`; created_at
and updated_at are one `datetime.now()` reading; saved with
`is_new=True`. -/
def create_document (fs : FS) (title content : String) : Res (Document × FS) :=
  match load_documents fs with
  | .validationError => .validationError
  | .ok existing_docs =>
      let doc_id := toString (existing_docs.length + 1)
      let tp := now fs
      let new_document : Document :=
        { id := doc_id, title := title, content := content
          created_at := tp.1, updated_at := tp.1 }
      match save_document tp.2 new_document true with
      | .validationError => .validationError
      | .ok fs2 => .ok (new_document, fs2)

/-- Model of `update_document`: fetch the existing document (`.ok none` maps to
HTTP 404); apply only the fields present in the request; stamp
updated_at with a fresh `datetime.now()`; save with `is_new=False`. -/
def update_document (fs : FS) (document_id : String) (titleOpt contentOpt : Option String) :
    Res (Option (Document × FS)) :=
  match get_document_by_id fs document_id with
  | .validationError => .validationError
  | .ok none => .ok none
  | .ok (some existing_doc) =>
      let withTitle := { existing_doc with title := titleOpt.getD existing_doc.title }
      let withContent := { withTitle with content := contentOpt.getD withTitle.content }
      let tp := now fs
      let updated_doc := { withContent with updated_at := tp.1 }
      match save_document tp.2 updated_doc false with
      | .validationError => .validationError
      | .ok fs2 => .ok (some (updated_doc, fs2))

/-- The `metas.pop(i)` of `delete_document_by_id`: drop the first record
whose id matches. -/
def eraseFirstById : List DocumentMeta → String → List DocumentMeta
  | [], _ => []
  | meta :: rest, doc_id =>
      if meta.id == doc_id then rest else meta :: eraseFirstById rest doc_id

/-- Model of `delete_document_by_id`: find the first matching record; if its
content file exists, back it up (fresh timestamp) and remove it
(removal errors swallowed); pop the record and persist; `False` with no
state change when no record matches. -/
def delete_document_by_id (fs : FS) (doc_id : String) : Res (Bool × FS) :=
  match load_document_metas_sync fs with
  | .validationError => .validationError
  | .ok metas =>
      match metas.find? (fun meta => meta.id == doc_id) with
      | none => .ok (false, fs)
      | some meta =>
          let fs1 :=
            if (getFile fs meta.file_path).isSome then
              let tp := now fs
              let fsb := backup_file_sync tp.2 meta.file_path (backupPathFor doc_id tp.1)
              removeFile fsb meta.file_path
            else fs
          .ok (true, save_document_metas_sync fs1 (eraseFirstById metas doc_id))

/-! Small-step model of `_save_document_metas_sync` for the atomicity and
cleanup claims.  The body of the function decomposes into atomic
filesystem events: `tempfile.mkstemp` creates an empty temporary file,
`json.dump` writes it (observable midway as a half-written file), and
`os.replace` atomically renames it onto `documents.json`.  The `finally`
block removes the temporary file when it still exists.  A concurrent
reader sees only the `index` component. -/

/-- Observable contents of the temporary file. -/
inductive TempContent where
  | created
  | halfWritten
  | full (metas : List DocumentMeta)
deriving DecidableEq, Repr

/-- State visible during a `_save_document_metas_sync` run: the canonical
index file and the temporary file (if any). -/
structure WriterState where
  index : Option IndexData
  temp : Option TempContent
deriving DecidableEq, Repr

/-- Atomic filesystem events of the save procedure. -/
inductive SaveStep where
  | mkstempStep
  | writeBegin (metas : List DocumentMeta)
  | writeEnd (metas : List DocumentMeta)
  | replaceStep
deriving DecidableEq, Repr

/-- Effect of one atomic event.  `os.replace` installs the temporary
file's bytes as the index in a single step; an empty or half-written
temporary file would parse as invalid JSON (the procedure only ever
renames a fully written one). -/
def applySaveStep (s : WriterState) : SaveStep → WriterState
  | .mkstempStep => { s with temp := some .created }
  | .writeBegin _ => { s with temp := some .halfWritten }
  | .writeEnd metas => { s with temp := some (.full metas) }
  | .replaceStep =>
      match s.temp with
      | none => s
      | some .created => { index := some .notJson, temp := none }
      | some .halfWritten => { index := some .notJson, temp := none }
      | some (.full metas) => { index := some (.good metas), temp := none }

/-- The event sequence of one complete `_save_document_metas_sync` run. -/
def saveProcedure (metas : List DocumentMeta) : List SaveStep :=
  [.mkstempStep, .writeBegin metas, .writeEnd metas, .replaceStep]

def runSteps (s : WriterState) (steps : List SaveStep) : WriterState :=
  steps.foldl applySaveStep s

/-- The `finally` block: remove the temporary file if it still exists. -/
def cleanupTemp (s : WriterState) : WriterState :=
  match s.temp with
  | some _ => { s with temp := none }
  | none => s

/-- What a concurrent `_load_document_metas_sync` reader observes. -/
def readerView (s : WriterState) : Res (List DocumentMeta) :=
  match s.index with
  | none => .ok []
  | some .notJson => .ok []
  | some .badRecords => .validationError
  | some (.good metas) => .ok metas

/-- BASE_DIR: directory holding `documents.json` and the temp file. -/
def BASE_DIR : String := "backend"

/-- DOCUMENTS_FILE: `os.path.join(BASE_DIR, "documents.json")`. -/
def DOCUMENTS_FILE : String := BASE_DIR ++ "/documents.json"

/-- Path produced by `tempfile.mkstemp(dir=BASE_DIR, prefix="documents_",
suffix=".json")`; `rand` is the random part of the name (it never
contains a path separator). -/
def mkstempPath (rand : String) : String :=
  BASE_DIR ++ "/documents_" ++ rand ++ ".json"

/-- Directory part of a path: the characters before the last slash. -/
def dirData (l : List Char) : List Char :=
  ((l.reverse.dropWhile (fun c => c != '/')).drop 1).reverse

/-- Directory part of a path string (`os.path.dirname`). -/
def dirOf (p : String) : String := String.mk (dirData p.data)

/-- First-match characterization used by the `find?` loops of the source:
the record at position `i` matches `doc_id` and no earlier one does. -/
def firstMatchAt (metas : List DocumentMeta) (doc_id : String) (i : Nat) (m : DocumentMeta) : Prop :=
  metas[i]? = some m ∧ m.id = doc_id ∧
    ∀ j mj, j < i → metas[j]? = some mj → mj.id ≠ doc_id

/-- The `DocumentMeta(...)` value constructed inside `save_document`. -/
def metaOf (document : Document) : DocumentMeta :=
  { id := document.id
    title := document.title
    file_path := filePathFor document.id
    created_at := document.created_at
    updated_at := document.updated_at }

theorem isPathPrefixOf_append (l r : List Char) : isPathPrefixOf l (l ++ r) = true := by
  induction l with
  | nil => simp [isPathPrefixOf]
  | cons a as ih => simp [isPathPrefixOf, ih]

theorem isBackupPath_backupPathFor (doc_id : String) (t : Nat) :
    isBackupPath (backupPathFor doc_id t) = true := by
  have h : backupPathFor doc_id t = "backup/" ++ (doc_id ++ "." ++ toString t ++ ".lix") := by
    simp [backupPathFor, BACKUP_DIR, String.ext_iff, String.data_append, List.append_assoc]
  rw [isBackupPath, h, String.data_append]
  exact isPathPrefixOf_append _ _

theorem isBackupPath_filePathFor (doc_id : String) :
    isBackupPath (filePathFor doc_id) = false := by
  have h : (filePathFor doc_id).data = 'f' :: 'i' :: 'l' :: 'e' :: '/' :: (doc_id.data ++ ".lix".data) := by
    simp [filePathFor, FILES_DIR, String.data_append]
  rw [isBackupPath, h]
  simp [isPathPrefixOf]

theorem lookupEntry_writeEntries_self (l : List (String × String)) (p c : String) :
    lookupEntry (writeEntries l p c) p = some c := by
  induction l with
  | nil => simp [writeEntries, lookupEntry]
  | cons e rest ih =>
      by_cases h : e.1 = p
      · simp [writeEntries, lookupEntry, h]
      · simp only [writeEntries, lookupEntry, List.find?_cons] at *
        have hb : (e.1 == p) = false := by simp [h]
        simp [hb, ih]

theorem lookupEntry_writeEntries_ne (l : List (String × String)) (p c q : String)
    (h : q ≠ p) : lookupEntry (writeEntries l p c) q = lookupEntry l q := by
  induction l with
  | nil =>
      have hb : (p == q) = false := by simp [Ne.symm h]
      simp [writeEntries, lookupEntry, hb]
  | cons e rest ih =>
      by_cases he : e.1 = p
      · have hbe : (e.1 == p) = true := by simp [he]
        have h1 : (p == q) = false := by simp [Ne.symm h]
        have h2 : (e.1 == q) = false := by simp [he, Ne.symm h]
        rw [show writeEntries (e :: rest) p c = (p, c) :: rest from by simp [writeEntries, hbe]]
        simp only [lookupEntry, List.find?_cons, h1, h2]
      · have hbe : (e.1 == p) = false := by simp [he]
        rw [show writeEntries (e :: rest) p c = e :: writeEntries rest p c from by
          simp [writeEntries, hbe]]
        by_cases heq : e.1 = q
        · have h2 : (e.1 == q) = true := by simp [heq]
          simp only [lookupEntry, List.find?_cons, h2]
        · have h2 : (e.1 == q) = false := by simp [heq]
          simp only [lookupEntry, List.find?_cons, h2]
          exact ih

theorem writeEntries_of_absent (l : List (String × String)) (p c : String)
    (h : lookupEntry l p = none) : writeEntries l p c = l ++ [(p, c)] := by
  induction l with
  | nil => simp [writeEntries]
  | cons e rest ih =>
      simp only [lookupEntry, List.find?_cons] at h
      by_cases he : (e.1 == p) = true
      · simp [he] at h
      · have he' : (e.1 == p) = false := by simpa using he
        rw [he'] at h
        simp [writeEntries, he', ih h]

theorem filter_backup_writeEntries_not (l : List (String × String)) (p c : String)
    (h : isBackupPath p = false) :
    (writeEntries l p c).filter (fun e => isBackupPath e.1) =
      l.filter (fun e => isBackupPath e.1) := by
  induction l with
  | nil => simp [writeEntries, List.filter, h]
  | cons e rest ih =>
      by_cases he : e.1 = p
      · simp [writeEntries, he, List.filter, h]
      · have he' : (e.1 == p) = false := by simp [he]
        simp only [writeEntries, he', if_neg, Bool.false_eq_true, not_false_iff, List.filter_cons]
        by_cases hb : isBackupPath e.1 = true
        · simp [hb, ih]
        · have hb' : isBackupPath e.1 = false := by simpa using hb
          simp [hb', ih]

theorem find?_of_firstMatchAt {metas : List DocumentMeta} {doc_id : String} {i : Nat}
    {m : DocumentMeta} (h : firstMatchAt metas doc_id i m) :
    metas.find? (fun x => x.id == doc_id) = some m := by
  induction metas generalizing i with
  | nil => exact absurd h.1 (by simp)
  | cons a rest ih =>
      obtain ⟨hget, hid, hbefore⟩ := h
      match i with
      | 0 =>
          simp at hget
          subst hget
          simp [List.find?_cons, hid]
      | Nat.succ k =>
          have ha : a.id ≠ doc_id := hbefore 0 a (Nat.succ_pos k) (by simp)
          have hb : (a.id == doc_id) = false := by simp [ha]
          rw [List.find?_cons, hb]
          exact ih ⟨by simpa using hget, hid,
            fun j mj hj hg => hbefore (j + 1) mj (Nat.succ_lt_succ hj) (by simpa using hg)⟩

theorem upsert_of_firstMatchAt {metas : List DocumentMeta} {doc_id : String} {i : Nat}
    {m : DocumentMeta} (h : firstMatchAt metas doc_id i m) (m' : DocumentMeta)
    (hm' : m'.id = doc_id) : upsertMeta metas m' = metas.set i m' := by
  induction metas generalizing i with
  | nil => exact absurd h.1 (by simp)
  | cons a rest ih =>
      obtain ⟨hget, hid, hbefore⟩ := h
      match i with
      | 0 =>
          simp at hget
          subst hget
          have hb : (a.id == m'.id) = true := by simp [hid, hm']
          simp [upsertMeta, hb]
      | Nat.succ k =>
          have ha : a.id ≠ doc_id := hbefore 0 a (Nat.succ_pos k) (by simp)
          have hb : (a.id == m'.id) = false := by simp [hm', ha]
          simp only [upsertMeta, hb, Bool.false_eq_true, if_false, List.set_cons_succ,
            List.cons.injEq, true_and]
          exact ih ⟨by simpa using hget, hid,
            fun j mj hj hg => hbefore (j + 1) mj (Nat.succ_lt_succ hj) (by simpa using hg)⟩ 

theorem upsert_of_not_found {metas : List DocumentMeta} {doc_id : String}
    (h : metas.find? (fun x => x.id == doc_id) = none) (m' : DocumentMeta)
    (hm' : m'.id = doc_id) : upsertMeta metas m' = metas ++ [m'] := by
  induction metas with
  | nil => simp [upsertMeta]
  | cons a rest ih =>
      rw [List.find?_cons] at h
      by_cases hb : (a.id == doc_id) = true
      · rw [hb] at h; simp at h
      · have hb' : (a.id == doc_id) = false := by simpa using hb
        rw [hb'] at h
        have hb2 : (a.id == m'.id) = false := by
          simpa [hm'] using hb'
        simp [upsertMeta, hb2, ih h]

theorem find?_upsert_self (metas : List DocumentMeta) (m : DocumentMeta) :
    (upsertMeta metas m).find? (fun x => x.id == m.id) = some m := by
  induction metas with
  | nil => simp [upsertMeta, List.find?_cons]
  | cons a rest ih =>
      by_cases hb : (a.id == m.id) = true
      · simp [upsertMeta, hb, List.find?_cons]
      · have hb' : (a.id == m.id) = false := by simpa using hb
        simp [upsertMeta, hb', List.find?_cons, ih]

theorem load_metas_writeFile (fs : FS) (p c : String) :
    load_document_metas_sync (writeFile fs p c) = load_document_metas_sync fs := rfl

theorem save_document_eq (fs : FS) (document : Document) (b : Bool)
    (metas : List DocumentMeta)
    (h : load_document_metas_sync fs = .ok metas) :
    save_document fs document b = .ok
      { index := some (.good (upsertMeta metas (metaOf document)))
        files := writeEntries
            (if !b && (getFile fs (filePathFor document.id)).isSome then
               writeEntries fs.files (backupPathFor document.id fs.clock)
                 ((getFile fs (filePathFor document.id)).getD "")
             else fs.files)
            (filePathFor document.id) document.content
        clock := if !b && (getFile fs (filePathFor document.id)).isSome then fs.clock + 1
                 else fs.clock } := by
  obtain ⟨idx, files, clock⟩ := fs
  rcases hg : lookupEntry files (filePathFor document.id) with _ | c <;>
    rcases idx with _ | _ | _ | ms <;>
      cases b <;>
        simp_all [save_document, write_file_content_sync, writeFile, backup_file_sync, now,
          save_document_metas_sync, metaOf, load_document_metas_sync, getFile]

theorem load_documents_eq (fs : FS) (metas : List DocumentMeta)
    (h : load_document_metas_sync fs = .ok metas) :
    load_documents fs = .ok (metas.map (materialize fs)) := by
  unfold load_documents
  rw [h]

theorem get_document_eq (fs : FS) (doc_id : String) (metas : List DocumentMeta)
    (h : load_document_metas_sync fs = .ok metas) :
    get_document_by_id fs doc_id =
      .ok ((metas.find? (fun meta => meta.id == doc_id)).map (materialize fs)) := by
  unfold get_document_by_id
  rw [h]

theorem create_document_eq (fs : FS) (title content : String) (metas : List DocumentMeta)
    (h : load_document_metas_sync fs = .ok metas) :
    create_document fs title content = .ok
      (⟨toString (metas.length + 1), title, content, fs.clock, fs.clock⟩,
       { index := some (.good (upsertMeta metas
           (metaOf ⟨toString (metas.length + 1), title, content, fs.clock, fs.clock⟩)))
         files := writeEntries fs.files (filePathFor (toString (metas.length + 1))) content
         clock := fs.clock + 1 }) := by
  have h2 : load_document_metas_sync { fs with clock := fs.clock + 1 } = .ok metas := h
  have hs := save_document_eq { fs with clock := fs.clock + 1 }
    ⟨toString (metas.length + 1), title, content, fs.clock, fs.clock⟩ true metas h2
  simp only [Bool.not_true, Bool.false_and, Bool.false_eq_true, if_false] at hs
  unfold create_document
  rw [load_documents_eq fs metas h]
  simp only [List.length_map, now]
  rw [hs]

theorem get_after_upsert (fs2 : FS) (metas : List DocumentMeta) (M : DocumentMeta)
    (h2 : load_document_metas_sync fs2 = .ok (upsertMeta metas M)) (doc_id : String)
    (hid : M.id = doc_id) :
    get_document_by_id fs2 doc_id = .ok (some (materialize fs2 M)) := by
  subst hid
  rw [get_document_eq fs2 M.id _ h2, find?_upsert_self]
  rfl

/-- C1: for every title and content, `create(title, content)` followed by
`get(id)` with the returned id yields a Document whose title and content
equal the ones passed to create, and whose createdAt equals its
updatedAt. -/
theorem create_then_get_roundtrip (fs : FS) (title content : String)
    (metas : List DocumentMeta) (h : load_document_metas_sync fs = .ok metas) :
    ∃ doc fs', create_document fs title content = .ok (doc, fs') ∧
      ∃ d, get_document_by_id fs' doc.id = .ok (some d) ∧
        d.title = title ∧ d.content = content ∧ d.created_at = d.updated_at := by
  refine ⟨⟨toString (metas.length + 1), title, content, fs.clock, fs.clock⟩, _,
    create_document_eq fs title content metas h, ?_⟩
  refine ⟨materialize
      { index := some (.good (upsertMeta metas
          (metaOf ⟨toString (metas.length + 1), title, content, fs.clock, fs.clock⟩)))
        files := writeEntries fs.files (filePathFor (toString (metas.length + 1))) content
        clock := fs.clock + 1 }
      (metaOf ⟨toString (metas.length + 1), title, content, fs.clock, fs.clock⟩),
    get_after_upsert
      { index := some (.good (upsertMeta metas
          (metaOf ⟨toString (metas.length + 1), title, content, fs.clock, fs.clock⟩)))
        files := writeEntries fs.files (filePathFor (toString (metas.length + 1))) content
        clock := fs.clock + 1 }
      metas
      (metaOf ⟨toString (metas.length + 1), title, content, fs.clock, fs.clock⟩)
      rfl (toString (metas.length + 1)) rfl, rfl, ?_, rfl⟩
  simp [materialize, metaOf, read_file_content_sync, getFile, writeFile,
    lookupEntry_writeEntries_self]

/-- C1 witness at a concrete state: empty store, `create("Alpha", "hi")`. -/
theorem create_then_get_roundtrip_witness :
    load_document_metas_sync ⟨none, [], 0⟩ = .ok [] ∧
    (∃ doc fs', create_document ⟨none, [], 0⟩ "Alpha" "hi" = .ok (doc, fs') ∧
      ∃ d, get_document_by_id fs' doc.id = .ok (some d) ∧
        d.title = "Alpha" ∧ d.content = "hi" ∧ d.created_at = d.updated_at) :=
  ⟨rfl, create_then_get_roundtrip ⟨none, [], 0⟩ "Alpha" "hi" [] rfl⟩

/-- C4: for every state of the store, `create` generates the new
document's id as the count of currently loaded documents plus one,
converted to a string — ids derive from index length, not randomness. -/
theorem create_id_is_count_plus_one (fs : FS) (title content : String)
    (docs : List Document) (hdocs : load_documents fs = .ok docs) :
    ∃ doc fs', create_document fs title content = .ok (doc, fs') ∧
      doc.id = toString (docs.length + 1) := by
  have hmetas : ∃ metas, load_document_metas_sync fs = .ok metas := by
    unfold load_documents at hdocs
    rcases hload : load_document_metas_sync fs with metas | _
    · exact ⟨metas, rfl⟩
    · rw [hload] at hdocs; cases hdocs
  obtain ⟨metas, hmetas⟩ := hmetas
  have hlen : docs.length = metas.length := by
    rw [load_documents_eq fs metas hmetas] at hdocs
    cases hdocs
    simp
  exact ⟨_, _, create_document_eq fs title content metas hmetas, by rw [hlen]⟩

/-- C4 witness: the first created document gets id "1"; with no
intervening deletions, the second create (on the resulting state) gets
id "2". -/
theorem create_id_is_count_plus_one_witness :
    (∃ doc fs', create_document ⟨none, [], 0⟩ "Alpha" "hi" = .ok (doc, fs') ∧
      doc.id = toString (1 : Nat)) ∧
    (∃ doc fs',
      create_document
        ⟨some (.good [⟨"1", "Alpha", "file/1.lix", 0, 0⟩]), [("file/1.lix", "hi")], 1⟩
        "Beta" "bye" = .ok (doc, fs') ∧
      doc.id = toString (2 : Nat)) := by
  constructor
  · exact create_id_is_count_plus_one ⟨none, [], 0⟩ "Alpha" "hi" [] rfl
  · exact create_id_is_count_plus_one _ "Beta" "bye"
      [⟨"1", "Alpha", "hi", 0, 0⟩] rfl

/-- C3 counterexample: index-file contents that are valid JSON but do not
validate as records (for instance `[{}]`) fail to parse as the expected
structured format, yet loading raises the validation error instead of
returning an empty sequence — `list()` propagates it. -/
theorem load_raises_on_bad_records :
    load_documents ⟨some .badRecords, [], 0⟩ = .validationError ∧
    get_document_by_id ⟨some .badRecords, [], 0⟩ "1" = .validationError :=
  ⟨rfl, rfl⟩

/-- C3 amended: if the index file is absent, or its contents fail to
parse as JSON, loading the index (and hence `list()`) returns an empty
sequence rather than raising; contents that are valid JSON but fail
record validation instead raise an uncaught validation error. -/
theorem load_empty_on_missing_or_bad_json (fs : FS) :
    (fs.index = none →
      load_document_metas_sync fs = .ok [] ∧ load_documents fs = .ok []) ∧
    (fs.index = some .notJson →
      load_document_metas_sync fs = .ok [] ∧ load_documents fs = .ok []) ∧
    (fs.index = some .badRecords → load_documents fs = .validationError) := by
  refine ⟨?_, ?_, ?_⟩ <;> intro h <;>
    simp [load_documents, load_document_metas_sync, h]

/-- C3 witness: the amended claim at concrete states. -/
theorem load_empty_on_missing_or_bad_json_witness :
    (load_document_metas_sync ⟨none, [], 0⟩ = .ok [] ∧
      load_documents ⟨none, [], 0⟩ = .ok []) ∧
    (load_document_metas_sync ⟨some .notJson, [("file/1.lix", "x")], 3⟩ = .ok [] ∧
      load_documents ⟨some .notJson, [("file/1.lix", "x")], 3⟩ = .ok []) :=
  ⟨(load_empty_on_missing_or_bad_json ⟨none, [], 0⟩).1 rfl,
   (load_empty_on_missing_or_bad_json ⟨some .notJson, [("file/1.lix", "x")], 3⟩).2.1 rfl⟩

/-- C7: for an id with no matching record, `get` signals NotFound
(`none`) and `delete` returns `false`, and neither creates any file nor
mutates the persisted index — the state is returned unchanged. -/
theorem absent_id_no_side_effects (fs : FS) (doc_id : String)
    (metas : List DocumentMeta)
    (hload : load_document_metas_sync fs = .ok metas)
    (habs : metas.find? (fun meta => meta.id == doc_id) = none) :
    get_document_by_id fs doc_id = .ok none ∧
    delete_document_by_id fs doc_id = .ok (false, fs) := by
  constructor
  · rw [get_document_eq fs doc_id metas hload, habs]
    rfl
  · unfold delete_document_by_id
    rw [hload]
    show (match metas.find? (fun meta => meta.id == doc_id) with
      | none => Res.ok (false, fs)
      | some meta =>
          Res.ok (true, save_document_metas_sync
            (if (getFile fs meta.file_path).isSome = true then
              removeFile
                (backup_file_sync (now fs).2 meta.file_path (backupPathFor doc_id (now fs).1))
                meta.file_path
            else fs) (eraseFirstById metas doc_id))) = Res.ok (false, fs)
    rw [habs]

/-- C7 witness: a store holding only document "1", queried for "2". -/
theorem absent_id_no_side_effects_witness :
    get_document_by_id
      ⟨some (.good [⟨"1", "A", "file/1.lix", 0, 0⟩]), [("file/1.lix", "hi")], 4⟩ "2" =
      .ok none ∧
    delete_document_by_id
      ⟨some (.good [⟨"1", "A", "file/1.lix", 0, 0⟩]), [("file/1.lix", "hi")], 4⟩ "2" =
      .ok (false, ⟨some (.good [⟨"1", "A", "file/1.lix", 0, 0⟩]), [("file/1.lix", "hi")], 4⟩) :=
  absent_id_no_side_effects
    ⟨some (.good [⟨"1", "A", "file/1.lix", 0, 0⟩]), [("file/1.lix", "hi")], 4⟩ "2"
    [⟨"1", "A", "file/1.lix", 0, 0⟩] rfl (by decide)

/-- C8: reading a content file returns its stored text when present and
the empty string when it is absent (or unreadable, modelled as absent);
a record whose content file is absent materializes as a Document with
empty content through `get`, with no error propagated. -/
theorem read_absent_is_empty (fs : FS) (p : String) :
    (∀ c, getFile fs p = some c → read_file_content_sync fs p = c) ∧
    (getFile fs p = none → read_file_content_sync fs p = "") ∧
    (∀ doc_id metas m, load_document_metas_sync fs = .ok metas →
      metas.find? (fun meta => meta.id == doc_id) = some m →
      getFile fs m.file_path = none →
      get_document_by_id fs doc_id = .ok (some (materialize fs m)) ∧
      (materialize fs m).content = "") := by
  refine ⟨?_, ?_, ?_⟩
  · intro c hc
    simp [read_file_content_sync, hc]
  · intro hc
    simp [read_file_content_sync, hc]
  · intro doc_id metas m hload hfind hfile
    constructor
    · rw [get_document_eq fs doc_id metas hload, hfind]
      rfl
    · simp [materialize, read_file_content_sync, hfile]

/-- C8 witness: a present file reads back; a record pointing to an
absent file materializes with empty content and no error. -/
theorem read_absent_is_empty_witness :
    read_file_content_sync ⟨none, [("file/1.lix", "hello")], 0⟩ "file/1.lix" = "hello" ∧
    read_file_content_sync ⟨none, [], 0⟩ "file/1.lix" = "" ∧
    get_document_by_id ⟨some (.good [⟨"1", "T", "file/1.lix", 0, 0⟩]), [], 0⟩ "1" =
      .ok (some (materialize ⟨some (.good [⟨"1", "T", "file/1.lix", 0, 0⟩]), [], 0⟩
        ⟨"1", "T", "file/1.lix", 0, 0⟩)) ∧
    (materialize ⟨some (.good [⟨"1", "T", "file/1.lix", 0, 0⟩]), [], 0⟩
      ⟨"1", "T", "file/1.lix", 0, 0⟩).content = "" :=
  ⟨(read_absent_is_empty ⟨none, [("file/1.lix", "hello")], 0⟩ "file/1.lix").1 "hello" rfl,
   (read_absent_is_empty ⟨none, [], 0⟩ "file/1.lix").2.1 rfl,
   ((read_absent_is_empty ⟨some (.good [⟨"1", "T", "file/1.lix", 0, 0⟩]), [], 0⟩
       "file/1.lix").2.2 "1" [⟨"1", "T", "file/1.lix", 0, 0⟩]
       ⟨"1", "T", "file/1.lix", 0, 0⟩ rfl (by decide) rfl).1,
   ((read_absent_is_empty ⟨some (.good [⟨"1", "T", "file/1.lix", 0, 0⟩]), [], 0⟩
       "file/1.lix").2.2 "1" [⟨"1", "T", "file/1.lix", 0, 0⟩]
       ⟨"1", "T", "file/1.lix", 0, 0⟩ rfl (by decide) rfl).2⟩

theorem update_document_eq (fs : FS) (doc_id : String) (tOpt cOpt : Option String)
    (metas : List DocumentMeta) (m : DocumentMeta)
    (hload : load_document_metas_sync fs = .ok metas)
    (hfind : metas.find? (fun meta => meta.id == doc_id) = some m) :
    update_document fs doc_id tOpt cOpt = .ok (some
      (⟨m.id, tOpt.getD m.title, cOpt.getD (read_file_content_sync fs m.file_path),
         m.created_at, fs.clock⟩,
       { index := some (.good (upsertMeta metas
           ⟨m.id, tOpt.getD m.title, filePathFor m.id, m.created_at, fs.clock⟩))
         files := writeEntries
             (if (getFile fs (filePathFor m.id)).isSome then
                writeEntries fs.files (backupPathFor m.id (fs.clock + 1))
                  ((getFile fs (filePathFor m.id)).getD "")
              else fs.files)
             (filePathFor m.id)
             (cOpt.getD (read_file_content_sync fs m.file_path))
         clock := if (getFile fs (filePathFor m.id)).isSome then fs.clock + 2
                  else fs.clock + 1 })) := by
  have hload2 : load_document_metas_sync { fs with clock := fs.clock + 1 } = .ok metas := hload
  have hs := save_document_eq { fs with clock := fs.clock + 1 }
    (⟨m.id, tOpt.getD m.title, cOpt.getD (read_file_content_sync fs m.file_path),
      m.created_at, fs.clock⟩ : Document) false metas hload2
  unfold update_document
  rw [get_document_eq fs doc_id metas hload, hfind]
  show (match save_document { fs with clock := fs.clock + 1 }
      (⟨m.id, tOpt.getD m.title, cOpt.getD (read_file_content_sync fs m.file_path),
        m.created_at, fs.clock⟩ : Document) false with
    | Res.validationError => Res.validationError
    | Res.ok fs2 => Res.ok (some
        ((⟨m.id, tOpt.getD m.title, cOpt.getD (read_file_content_sync fs m.file_path),
           m.created_at, fs.clock⟩ : Document), fs2))) = _
  rw [hs]
  rfl

/-- C5: `update(id, title=None, content="x")` on an existing document
changes only the content and the updatedAt timestamp; the title,
createdAt, id, and every other document's record are unchanged (partial
update semantics: omitted fields keep their values). -/
theorem update_changes_only_content_and_updatedAt (fs : FS) (doc_id x : String)
    (metas : List DocumentMeta) (i : Nat) (m : DocumentMeta)
    (hload : load_document_metas_sync fs = .ok metas)
    (hfirst : firstMatchAt metas doc_id i m) :
    ∃ d fs', update_document fs doc_id none (some x) = .ok (some (d, fs')) ∧
      d.id = m.id ∧ d.title = m.title ∧ d.content = x ∧
      d.created_at = m.created_at ∧ d.updated_at = fs.clock ∧
      load_document_metas_sync fs' =
        .ok (metas.set i ⟨m.id, m.title, filePathFor m.id, m.created_at, fs.clock⟩) ∧
      ∀ j, j ≠ i →
        (metas.set i ⟨m.id, m.title, filePathFor m.id, m.created_at, fs.clock⟩)[j]? =
          metas[j]? := by
  have hfind := find?_of_firstMatchAt hfirst
  have hupd := update_document_eq fs doc_id none (some x) metas m hload hfind
  refine ⟨_, _, hupd, rfl, rfl, rfl, rfl, rfl, ?_, ?_⟩
  · exact congrArg (fun l => Res.ok l)
      (upsert_of_firstMatchAt hfirst
        (⟨m.id, m.title, filePathFor m.id, m.created_at, fs.clock⟩ : DocumentMeta)
        hfirst.2.1)
  · intro j hj
    exact List.getElem?_set_ne (Ne.symm hj)

/-- C5 witness: a one-document store, `update("1", title=None,
content="x")`. -/
theorem update_changes_only_content_and_updatedAt_witness :
    ∃ d fs', update_document
        ⟨some (.good [⟨"1", "T", "file/1.lix", 5, 5⟩]), [("file/1.lix", "old")], 7⟩
        "1" none (some "x") = .ok (some (d, fs')) ∧
      d.id = "1" ∧ d.title = "T" ∧ d.content = "x" ∧
      d.created_at = 5 ∧ d.updated_at = 7 ∧
      load_document_metas_sync fs' =
        .ok (([⟨"1", "T", "file/1.lix", 5, 5⟩] : List DocumentMeta).set 0
          ⟨"1", "T", filePathFor "1", 5, 7⟩) ∧
      ∀ j, j ≠ 0 →
        (([⟨"1", "T", "file/1.lix", 5, 5⟩] : List DocumentMeta).set 0
          ⟨"1", "T", filePathFor "1", 5, 7⟩)[j]? =
          ([⟨"1", "T", "file/1.lix", 5, 5⟩] : List DocumentMeta)[j]? :=
  update_changes_only_content_and_updatedAt
    ⟨some (.good [⟨"1", "T", "file/1.lix", 5, 5⟩]), [("file/1.lix", "old")], 7⟩
    "1" "x" [⟨"1", "T", "file/1.lix", 5, 5⟩] 0 ⟨"1", "T", "file/1.lix", 5, 5⟩
    rfl ⟨rfl, rfl, by simp⟩

/-- C6: updating an existing document whose content file exists adds
exactly one new file to the backup directory, at the path stamped with
the document id and the fresh timestamp, holding the pre-update content
byte-for-byte (the backup is taken from the file before it is
overwritten). -/
theorem update_makes_one_backup (fs : FS) (doc_id : String) (tOpt cOpt : Option String)
    (metas : List DocumentMeta) (m : DocumentMeta) (c : String)
    (hload : load_document_metas_sync fs = .ok metas)
    (hfind : metas.find? (fun meta => meta.id == doc_id) = some m)
    (hfile : getFile fs (filePathFor m.id) = some c)
    (hfresh : getFile fs (backupPathFor m.id (fs.clock + 1)) = none) :
    ∃ d fs', update_document fs doc_id tOpt cOpt = .ok (some (d, fs')) ∧
      backupFiles fs' = backupFiles fs ++ [(backupPathFor m.id (fs.clock + 1), c)] := by
  have hupd := update_document_eq fs doc_id tOpt cOpt metas m hload hfind
  refine ⟨_, _, hupd, ?_⟩
  show (writeEntries
      (if (getFile fs (filePathFor m.id)).isSome then
        writeEntries fs.files (backupPathFor m.id (fs.clock + 1))
          ((getFile fs (filePathFor m.id)).getD "")
      else fs.files)
      (filePathFor m.id) (cOpt.getD (read_file_content_sync fs m.file_path))).filter
      (fun e => isBackupPath e.1) = _
  rw [hfile]
  simp only [Option.isSome_some, if_true, Option.getD_some]
  rw [filter_backup_writeEntries_not _ _ _ (isBackupPath_filePathFor m.id)]
  rw [writeEntries_of_absent fs.files _ c hfresh]
  rw [List.filter_append]
  simp [backupFiles, isBackupPath_backupPathFor]

/-- C6 witness: a one-document store with content file present and a
fresh backup path. -/
theorem update_makes_one_backup_witness :
    getFile ⟨some (.good [⟨"1", "T", "file/1.lix", 5, 5⟩]), [("file/1.lix", "old")], 7⟩
      (filePathFor "1") = some "old" ∧
    (∃ d fs', update_document
        ⟨some (.good [⟨"1", "T", "file/1.lix", 5, 5⟩]), [("file/1.lix", "old")], 7⟩
        "1" none (some "x") = .ok (some (d, fs')) ∧
      backupFiles fs' =
        backupFiles ⟨some (.good [⟨"1", "T", "file/1.lix", 5, 5⟩]),
          [("file/1.lix", "old")], 7⟩ ++ [(backupPathFor "1" 8, "old")]) :=
  ⟨by decide,
   update_makes_one_backup
     ⟨some (.good [⟨"1", "T", "file/1.lix", 5, 5⟩]), [("file/1.lix", "old")], 7⟩
     "1" none (some "x") [⟨"1", "T", "file/1.lix", 5, 5⟩]
     ⟨"1", "T", "file/1.lix", 5, 5⟩ "old" rfl (by decide) (by decide) (by decide)⟩

/-- C9: `create` never backs up the content file for the generated id,
even when a file at that path already exists (count-based id reuse after
a deletion): the `is_new=True` save path unconditionally overwrites the
existing content file, destroying its previous bytes with no new backup
appearing. -/
theorem create_overwrites_without_backup (fs : FS) (title content : String)
    (metas : List DocumentMeta) (c : String)
    (hload : load_document_metas_sync fs = .ok metas)
    (_hex : getFile fs (filePathFor (toString (metas.length + 1))) = some c) :
    ∃ doc fs', create_document fs title content = .ok (doc, fs') ∧
      doc.id = toString (metas.length + 1) ∧
      getFile fs' (filePathFor doc.id) = some content ∧
      backupFiles fs' = backupFiles fs := by
  refine ⟨_, _, create_document_eq fs title content metas hload, rfl, ?_, ?_⟩
  · exact lookupEntry_writeEntries_self fs.files (filePathFor (toString (metas.length + 1)))
      content
  · exact filter_backup_writeEntries_not fs.files _ content
      (isBackupPath_filePathFor (toString (metas.length + 1)))

/-- C9 witness: a store with two records whose next generated id is
"3", and a content file already present at `file/3.lix`: its bytes are
destroyed by the next create, with no backup made. -/
theorem create_overwrites_without_backup_witness :
    getFile ⟨some (.good [⟨"2", "B", "file/2.lix", 0, 0⟩, ⟨"3", "C", "file/3.lix", 0, 0⟩]),
        [("file/3.lix", "precious")], 9⟩ (filePathFor (toString (2 + 1))) =
      some "precious" ∧
    (∃ doc fs', create_document
        ⟨some (.good [⟨"2", "B", "file/2.lix", 0, 0⟩, ⟨"3", "C", "file/3.lix", 0, 0⟩]),
          [("file/3.lix", "precious")], 9⟩ "T" "new" = .ok (doc, fs') ∧
      doc.id = toString (2 + 1) ∧
      getFile fs' (filePathFor doc.id) = some "new" ∧
      backupFiles fs' =
        backupFiles ⟨some (.good [⟨"2", "B", "file/2.lix", 0, 0⟩,
          ⟨"3", "C", "file/3.lix", 0, 0⟩]), [("file/3.lix", "precious")], 9⟩) :=
  ⟨by decide,
   create_overwrites_without_backup
     ⟨some (.good [⟨"2", "B", "file/2.lix", 0, 0⟩, ⟨"3", "C", "file/3.lix", 0, 0⟩]),
       [("file/3.lix", "precious")], 9⟩ "T" "new"
     [⟨"2", "B", "file/2.lix", 0, 0⟩, ⟨"3", "C", "file/3.lix", 0, 0⟩] "precious"
     rfl (by decide)⟩

/-- C10 counterexample: "create always adds at the end" fails once the
count-based id collides with an existing record that is not last.  With
loaded records `[id "3", id "1"]` the generated id is `str(2+1) = "3"`,
and the save replaces the record at position 0 in place: the resulting
index is `[new record "3", old record "1"]`, so the new record is not at
the end. -/
theorem create_not_always_append :
    create_document
        ⟨some (.good [⟨"3", "C", "file/3.lix", 0, 0⟩, ⟨"1", "A", "file/1.lix", 0, 0⟩]),
          [], 5⟩ "T" "X" =
      .ok (⟨"3", "T", "X", 5, 5⟩,
        ⟨some (.good [⟨"3", "T", "file/3.lix", 5, 5⟩, ⟨"1", "A", "file/1.lix", 0, 0⟩]),
          [("file/3.lix", "X")], 6⟩) ∧
    ([⟨"3", "T", "file/3.lix", 5, 5⟩, ⟨"1", "A", "file/1.lix", 0, 0⟩] :
        List DocumentMeta).getLast? = some ⟨"1", "A", "file/1.lix", 0, 0⟩ :=
  ⟨by decide, by decide⟩

/-- C10 amended: `save_document` preserves index order — a record with
the same id already in the loaded sequence is replaced in place at its
first matching position, otherwise the new record is appended at the
end; hence update never changes a document's position in `list()` order,
and create adds at the end whenever its generated id is not already
present in the index (which can fail after deletions, since ids are
count-based). -/
theorem save_document_preserves_order (fs : FS) (document : Document) (b : Bool)
    (metas : List DocumentMeta)
    (hload : load_document_metas_sync fs = .ok metas) :
    ∃ fs', save_document fs document b = .ok fs' ∧
      (∀ i m, firstMatchAt metas document.id i m →
        load_document_metas_sync fs' = .ok (metas.set i (metaOf document))) ∧
      (metas.find? (fun meta => meta.id == document.id) = none →
        load_document_metas_sync fs' = .ok (metas ++ [metaOf document])) := by
  refine ⟨_, save_document_eq fs document b metas hload, ?_, ?_⟩
  · intro i m hfirst
    exact congrArg (fun l => Res.ok l)
      (upsert_of_firstMatchAt hfirst (metaOf document) rfl)
  · intro hnone
    exact congrArg (fun l => Res.ok l)
      (upsert_of_not_found hnone (metaOf document) rfl)

/-- C10 witness: replace-in-place at position 0 of a two-record index,
and append for a fresh id. -/
theorem save_document_preserves_order_witness :
    (∃ fs', save_document
        ⟨some (.good [⟨"3", "C", "file/3.lix", 0, 0⟩, ⟨"1", "A", "file/1.lix", 0, 0⟩]),
          [], 5⟩ ⟨"3", "T", "X", 5, 5⟩ true = .ok fs' ∧
      load_document_metas_sync fs' =
        .ok (([⟨"3", "C", "file/3.lix", 0, 0⟩, ⟨"1", "A", "file/1.lix", 0, 0⟩] :
          List DocumentMeta).set 0 (metaOf ⟨"3", "T", "X", 5, 5⟩))) ∧
    (∃ fs', save_document
        ⟨some (.good [⟨"1", "A", "file/1.lix", 0, 0⟩]), [], 5⟩
        ⟨"2", "T", "X", 5, 5⟩ true = .ok fs' ∧
      load_document_metas_sync fs' =
        .ok ([⟨"1", "A", "file/1.lix", 0, 0⟩] ++ [metaOf ⟨"2", "T", "X", 5, 5⟩])) := by
  constructor
  · obtain ⟨fs', h1, h2, _⟩ := save_document_preserves_order
      ⟨some (.good [⟨"3", "C", "file/3.lix", 0, 0⟩, ⟨"1", "A", "file/1.lix", 0, 0⟩]),
        [], 5⟩ ⟨"3", "T", "X", 5, 5⟩ true
      [⟨"3", "C", "file/3.lix", 0, 0⟩, ⟨"1", "A", "file/1.lix", 0, 0⟩] rfl
    exact ⟨fs', h1, h2 0 ⟨"3", "C", "file/3.lix", 0, 0⟩ ⟨rfl, rfl, by simp⟩⟩
  · obtain ⟨fs', h1, _, h3⟩ := save_document_preserves_order
      ⟨some (.good [⟨"1", "A", "file/1.lix", 0, 0⟩]), [], 5⟩
      ⟨"2", "T", "X", 5, 5⟩ true [⟨"1", "A", "file/1.lix", 0, 0⟩] rfl
    exact ⟨fs', h1, h3 (by decide)⟩

theorem dropWhile_append_of_all {p : Char → Bool} (xs ys : List Char)
    (h : ∀ x ∈ xs, p x = true) :
    (xs ++ ys).dropWhile p = ys.dropWhile p := by
  induction xs with
  | nil => simp
  | cons a as ih =>
      simp only [List.cons_append, List.dropWhile_cons, h a (by simp)]
      exact ih (fun x hx => h x (by simp [hx]))

theorem dirOf_mkstempPath (rand : String) (h : ∀ ch ∈ rand.data, (ch != '/') = true) :
    dirOf (mkstempPath rand) = dirOf DOCUMENTS_FILE := by
  have hdoc : dirOf DOCUMENTS_FILE = BASE_DIR := by decide
  rw [hdoc]
  unfold dirOf dirData mkstempPath BASE_DIR
  rw [String.data_append, String.data_append, String.data_append]
  rw [List.reverse_append, List.reverse_append, List.reverse_append]
  rw [dropWhile_append_of_all _ _ (by decide)]
  rw [dropWhile_append_of_all _ _ (fun x hx => h x (List.mem_reverse.mp hx))]
  decide

theorem runSteps_take_saveProcedure (old : Option IndexData)
    (metas : List DocumentMeta) (k : Nat) :
    runSteps ⟨old, none⟩ ((saveProcedure metas).take k) =
      match k with
      | 0 => ⟨old, none⟩
      | 1 => ⟨old, some .created⟩
      | 2 => ⟨old, some .halfWritten⟩
      | 3 => ⟨old, some (.full metas)⟩
      | _ + 4 => ⟨some (.good metas), none⟩ := by
  match k with
  | 0 => rfl
  | 1 => rfl
  | 2 => rfl
  | 3 => rfl
  | n + 4 =>
      have hlen : (saveProcedure metas).length ≤ n + 4 := by simp [saveProcedure]
      rw [List.take_of_length_le hlen]
      rfl

/-- C2: `_save_document_metas_sync` writes the serialized records to a
temporary file in the same directory as `documents.json` and installs it
with a single `os.replace`: at every intermediate point of the
procedure a concurrent reader of the index file observes either the
complete old contents or the complete new contents, never a truncated or
mixed file; after a failure at any point followed by the `finally`
block, the temporary file is gone; the completed run leaves exactly the
new records. -/
theorem saveAll_atomic_and_cleanup (old : Option IndexData)
    (metas : List DocumentMeta) (k : Nat) (rand : String)
    (hrand : ∀ ch ∈ rand.data, (ch != '/') = true) :
    ((runSteps ⟨old, none⟩ ((saveProcedure metas).take k)).index = old ∨
     (runSteps ⟨old, none⟩ ((saveProcedure metas).take k)).index = some (.good metas)) ∧
    (readerView (runSteps ⟨old, none⟩ ((saveProcedure metas).take k)) =
        readerView ⟨old, none⟩ ∨
     readerView (runSteps ⟨old, none⟩ ((saveProcedure metas).take k)) = .ok metas) ∧
    (cleanupTemp (runSteps ⟨old, none⟩ ((saveProcedure metas).take k))).temp = none ∧
    (runSteps ⟨old, none⟩ (saveProcedure metas)).index = some (.good metas) ∧
    dirOf (mkstempPath rand) = dirOf DOCUMENTS_FILE := by
  rw [runSteps_take_saveProcedure]
  refine ⟨?_, ?_, ?_, rfl, dirOf_mkstempPath rand hrand⟩
  · match k with
    | 0 => exact Or.inl rfl
    | 1 => exact Or.inl rfl
    | 2 => exact Or.inl rfl
    | 3 => exact Or.inl rfl
    | n + 4 => exact Or.inr rfl
  · match k with
    | 0 => exact Or.inl rfl
    | 1 => exact Or.inl rfl
    | 2 => exact Or.inl rfl
    | 3 => exact Or.inl rfl
    | n + 4 => exact Or.inr rfl
  · match k with
    | 0 => rfl
    | 1 => rfl
    | 2 => rfl
    | 3 => rfl
    | n + 4 => rfl

/-- C2 witness: a concrete in-flight save (failure after the first write
step) over a one-record index. -/
theorem saveAll_atomic_and_cleanup_witness :
    ((runSteps ⟨some (.good [⟨"1", "A", "file/1.lix", 0, 0⟩]), none⟩
        ((saveProcedure []).take 2)).index =
          some (.good [⟨"1", "A", "file/1.lix", 0, 0⟩]) ∨
     (runSteps ⟨some (.good [⟨"1", "A", "file/1.lix", 0, 0⟩]), none⟩
        ((saveProcedure []).take 2)).index = some (.good [])) ∧
    (readerView (runSteps ⟨some (.good [⟨"1", "A", "file/1.lix", 0, 0⟩]), none⟩
        ((saveProcedure []).take 2)) =
          readerView ⟨some (.good [⟨"1", "A", "file/1.lix", 0, 0⟩]), none⟩ ∨
     readerView (runSteps ⟨some (.good [⟨"1", "A", "file/1.lix", 0, 0⟩]), none⟩
        ((saveProcedure []).take 2)) = .ok []) ∧
    (cleanupTemp (runSteps ⟨some (.good [⟨"1", "A", "file/1.lix", 0, 0⟩]), none⟩
        ((saveProcedure []).take 2))).temp = none ∧
    (runSteps ⟨some (.good [⟨"1", "A", "file/1.lix", 0, 0⟩]), none⟩
        (saveProcedure [])).index = some (.good []) ∧
    dirOf (mkstempPath "k3x9q2") = dirOf DOCUMENTS_FILE :=
  saveAll_atomic_and_cleanup (some (.good [⟨"1", "A", "file/1.lix", 0, 0⟩])) [] 2
    "k3x9q2" (by decide)
